import Mathlib

/-!
Verification of the PeerDB replication orchestration and normalization engine
against its natural-language specification.

The Go source is shallowly embedded: each Go function relevant to a claim is
translated into an executable Lean definition with the same name (up to
casing), machine integers become `Int`/`Nat`, fallible code returns
`Except`/`Option`, and stateful code is written as explicit state passing.
External library functions (JSON unmarshalling, big.Rat parsing, float
narrowing) are abstracted as parameters so that the embedded code stays
faithful without re-implementing the Go standard library.
-/

namespace PeerDB

/-! ## ClickHouse connector: `NormalizeRecords`
(src/flow/connectors/clickhouse/normalize.go, lines 127-247)

The connector stores a single persisted counter, the last normalize batch id
(read via `GetLastNormalizeBatchID`, written via `UpdateNormalizeBatchID`).
`NormalizeRecords` receives a request carrying `SyncBatchID`.  We embed the
function as a pure step: inputs are the stored counter and the request's sync
batch id; outputs are the response, the new stored counter, and the half-open
batch-id range used in the generated `INSERT INTO ... SELECT ... WHERE
_peerdb_batch_id > normBatchID AND _peerdb_batch_id <= req.SyncBatchID`
(`none` when no insert statement is executed at all). -/

structure NormalizeResponse where
  done : Bool
  startBatchID : Int
  endBatchID : Int
  deriving Repr, DecidableEq

structure ChNormalizeResult where
  response : NormalizeResponse
  /-- the value persisted via `UpdateNormalizeBatchID` after the call
  (unchanged when the function returns early). -/
  newNormBatchID : Int
  /-- when table writes are executed, the `(exclusive lo, inclusive hi)`
  batch-id bounds of the `WHERE` clause of every generated insert-select;
  `none` when the function returns before executing any write. -/
  applied : Option (Int × Int)
  deriving Repr, DecidableEq

def chNormalizeStep (normBatchID syncBatchID : Int) : ChNormalizeResult :=
  -- normalize has caught up with sync, chill until more records are loaded.
  if normBatchID ≥ syncBatchID then
    { response := { done := false, startBatchID := normBatchID, endBatchID := syncBatchID }
      newNormBatchID := normBatchID
      applied := none }
  else
    -- every per-table insert-select filters on
    --   _peerdb_batch_id > normBatchID AND _peerdb_batch_id <= syncBatchID
    -- and afterwards the counter is persisted as normBatchID + 1.
    let endNormalizeBatchId := normBatchID + 1
    { response := { done := true, startBatchID := endNormalizeBatchId, endBatchID := syncBatchID }
      newNormBatchID := endNormalizeBatchId
      applied := some (normBatchID, syncBatchID) }

/-- A raw record with batch id `b` is selected by the generated `WHERE`
clause with bounds `(lo, hi)` iff `lo < b ∧ b ≤ hi`. -/
def selectedByRange (range : Int × Int) (b : Int) : Prop :=
  range.1 < b ∧ b ≤ range.2

instance (range : Int × Int) (b : Int) : Decidable (selectedByRange range b) := by
  unfold selectedByRange; infer_instance

/-- Correctness predicate for a sequence of `NormalizeRecords` invocations,
threading the stored normalize batch id through `chNormalizeStep`: each
invocation leaves the counter no smaller, leaves it at most the request's
sync batch id, and only ever selects raw records in the half-open range
`(stored normalize id, request sync id]`. -/
def normRunOK : Int → List Int → Prop
  | _, [] => True
  | norm, sync :: rest =>
    let step := chNormalizeStep norm sync
    norm ≤ step.newNormBatchID ∧
    step.newNormBatchID ≤ sync ∧
    (∀ range, step.applied = some range →
      ∀ b : Int, selectedByRange range b ↔ (norm < b ∧ b ≤ sync)) ∧
    normRunOK step.newNormBatchID rest

/-! ## QRep workflow state and partition chunking
(src/unnamed/part_001: `NewQRepFlowState`, `processPartitions`,
`QRepFlowWorkflow`; src/unnamed/part_002: `XminFlowWorkflow`) -/

/-- `protos.FlowStatus` values used by the workflow files. -/
inductive FlowStatus where
  | unknown
  | setup
  | snapshot
  | running
  | paused
  | terminated
  deriving Repr, DecidableEq

/-- `protos.QRepPartition`: partition id plus an optional range.  The range
payload is abstracted to the integer range start actually used by
`XminFlowWorkflow`; `none` models a `nil` `Range` pointer. -/
structure QRepPartition where
  partitionId : String
  range : Option Int
  deriving Repr, DecidableEq

/-- `protos.QRepFlowState`, the entire checkpoint carried across
continue-as-new invocations of `QRepFlowWorkflow`/`XminFlowWorkflow`. -/
structure QRepFlowState where
  lastPartition : QRepPartition
  numPartitionsProcessed : Nat
  needsResync : Bool
  disableWaitForNewRows : Bool
  currentFlowStatus : FlowStatus
  deriving Repr, DecidableEq

/-- `NewQRepFlowState` (src/unnamed/part_001 lines 57-68).  The Go struct
literal leaves `DisableWaitForNewRows` at its zero value `false` and
`CurrentFlowStatus` is set to `STATUS_RUNNING`. -/
def NewQRepFlowState : QRepFlowState :=
  { lastPartition := { partitionId := "not-applicable-partition", range := none }
    numPartitionsProcessed := 0
    needsResync := true
    disableWaitForNewRows := false
    currentFlowStatus := FlowStatus.running }

/-- `shared.DivCeil`. Modelled from the spec: the helper lives in the
`shared` package, which is not part of the provided sources; §4.3 specifies
"chunked into at most `max_parallel_workers` groups of near-equal size
(ceiling-division chunk size)", so `DivCeil x y = ⌈x / y⌉`. -/
def DivCeil (x y : Nat) : Nat := (x + y - 1) / y

/-- The slicing loop of `processPartitions` (src/unnamed/part_001 lines
254-259): `for i := 0; i < len(partitions); i += chunkSize` appending
`partitions[i:min(i+chunkSize, len(partitions))]`.  The `fuel` argument is
only a structural termination witness; it is called with `fuel =
partitions.length` and every recursive call keeps `fuel` at least the
length of the remaining list, so the `0, _ :: _` case is never reached
(`chunkSize = 0` happens only for an empty partition list, where the Go
loop body never runs). -/
def chunkLoopGo {α : Type} (chunkSize : Nat) : Nat → List α → List (List α)
  | _, [] => []
  | 0, _ :: _ => []
  | fuel + 1, p :: ps =>
    if chunkSize = 0 then []
    else (p :: ps).take chunkSize :: chunkLoopGo chunkSize fuel ((p :: ps).drop chunkSize)

def chunkLoop {α : Type} (chunkSize : Nat) (partitions : List α) : List (List α) :=
  chunkLoopGo chunkSize partitions.length partitions

/-- The partition batching computed by `processPartitions`
(src/unnamed/part_001 lines 249-282): `chunkSize := shared.DivCeil(
len(partitions), maxParallelWorkers)`, then the slice capacity computation
`len(partitions)/chunkSize+1` at line 255, then the slicing loop.  Each
resulting group is dispatched as one child workflow.  When `chunkSize = 0`
(an empty partition list for `maxParallelWorkers ≥ 1`; for
`maxParallelWorkers = 0` the Go `DivCeil` itself already divides by zero)
the capacity computation panics with an integer divide by zero, so the
function never returns; the panic is modelled as `none`. -/
def processPartitionsBatches {α : Type} (maxParallelWorkers : Nat)
    (partitions : List α) : Option (List (List α)) :=
  let chunkSize := DivCeil partitions.length maxParallelWorkers
  if chunkSize = 0 then none
  else some (chunkLoop chunkSize partitions)

/-! ### Pause/resume signal handling

`model.CDCFlowSignal` and `model.FlowSignalHandler` live in the `model`
package, which is not part of the provided sources. -/

/-- Modelled from the spec: §3 `FlowSignal` — "one of `{none, pause, resume,
terminate}`". -/
inductive FlowSignal where
  | noop
  | pause
  | resume
  | terminate
  deriving Repr, DecidableEq

/-- `model.FlowSignalHandler`. Modelled from the spec: §3 — "latest-wins — a
newer signal overwrites a pending one of lower priority except `terminate`,
which is sticky once observed". -/
def FlowSignalHandler (activeSignal incoming : FlowSignal) : FlowSignal :=
  match activeSignal with
  | FlowSignal.terminate => FlowSignal.terminate
  | _ => incoming

/-- The busy-wait of `QRepFlowWorkflow` lines 526-535 (identical in
`XminFlowWorkflow` lines 95-104): `for q.activeSignal == model.PauseSignal`
block on `ReceiveWithTimeout`; each delivered signal is folded in through
`FlowSignalHandler`.  The state is only read here, never written.  If the
delivered-signal list runs out while still paused the workflow stays blocked
in the loop (no continuation state), modelled as `none`. -/
def pauseLoop (activeSignal : FlowSignal) (sigs : List FlowSignal)
    (state : QRepFlowState) : Option QRepFlowState :=
  if activeSignal = FlowSignal.pause then
    match sigs with
    | [] => none
    | s :: rest => pauseLoop (FlowSignalHandler activeSignal s) rest state
  else
    some state

/-- The signal-handling tail of `QRepFlowWorkflow` (src/unnamed/part_001
lines 518-541) and `XminFlowWorkflow` (src/unnamed/part_002 lines 87-111),
given the list of signals delivered on the signal channel: one
`ReceiveAsync` (taking the head, if any), then, if the active signal is
`pause`, `state.CurrentFlowStatus = protos.FlowStatus_STATUS_PAUSED`
followed by the blocking receive loop.  The returned state is the one passed
to `workflow.NewContinueAsNewError`. -/
def signalTail (state : QRepFlowState) (sigs : List FlowSignal) :
    Option QRepFlowState :=
  let activeSignal :=
    match sigs with
    | [] => FlowSignal.noop
    | s :: _ => FlowSignalHandler FlowSignal.noop s
  if activeSignal = FlowSignal.pause then
    pauseLoop activeSignal sigs.tail
      { state with currentFlowStatus := FlowStatus.paused }
  else
    some state

/-! ## BigQuery connector: merge statement generator
(src/flow/connectors/bigquery/merge_stmt_generator.go)

The generator builds a BigQuery `MERGE` statement as a string.  We embed it
structurally: every `WHEN ... THEN ...` branch becomes a `MergeClause` whose
fields record the `MATCHED`/`NOT MATCHED` side, the `_rt` comparison, the
`_ut` (unchanged-toast-columns) equality filter, and the action with its
column/value lists.  The right-hand sides that occur are `_d.<shortcol>`
references, `CURRENT_TIMESTAMP`, `TRUE` and `FALSE`. -/

/-- `protos.PeerDBColumns`: the soft-delete and synced-at configuration. -/
structure PeerDBColumns where
  softDelete : Bool
  softDeleteColName : String
  syncedAtColName : String
  deriving Repr, DecidableEq

/-- A right-hand side occurring in the generated merge statement. -/
inductive MergeExpr where
  /-- `_d.<shortcol>`: the deduplicated staged value of a column. -/
  | shortColRef (col : String)
  | currentTimestamp
  | litTrue
  | litFalse
  deriving Repr, DecidableEq

/-- One `WHEN MATCHED AND _rt(!=|=)2 AND _ut='<cols>' THEN UPDATE SET ...`
clause produced by `generateUpdateStatements`. -/
structure UpdateClause where
  /-- `false` for the `_rt!=2` (non-delete) clause, `true` for the `_rt=2`
  clause generated when soft-delete is handled. -/
  matchedRtEq2 : Bool
  /-- the comma-separated unchanged-toast-columns group in the `_ut` filter. -/
  ut : String
  assigns : List (String × MergeExpr)
  deriving Repr, DecidableEq

/-- `utils.ArrayMinus`. Modelled from the spec: the helper lives in the
`utils` package, which is not part of the provided sources; the doc comment
of `generateUpdateStatements` specifies "Calculate the other columns by
finding the set difference between all column names and the unchanged
columns", preserving the order of the first list. -/
def ArrayMinus (first second : List String) : List String :=
  first.filter (fun c => !(second.contains c))

/-- The body of one iteration of the loop in `generateUpdateStatements`
(merge_stmt_generator.go lines 205-242) for one unchanged-toast-columns
group `cols`.  `tmpArray[:len(tmpArray)-1]` followed by `append` is
`dropLast` followed by appending the `TRUE` assignment. -/
def updateClausesForGroup (pcols : PeerDBColumns) (shortColumn : String → String)
    (allCols : List String) (cols : String) : List UpdateClause :=
  let handleSoftDelete := pcols.softDelete && pcols.softDeleteColName ≠ ""
  let unchangedColsArray := cols.splitOn ","
  let otherCols := ArrayMinus allCols unchangedColsArray
  let tmpArray := otherCols.map
    (fun colName => (colName, MergeExpr.shortColRef (shortColumn colName)))
  -- set the synced at column to the current timestamp
  let tmpArray := if pcols.syncedAtColName ≠ "" then
      tmpArray ++ [(pcols.syncedAtColName, MergeExpr.currentTimestamp)]
    else tmpArray
  -- set soft-deleted to false, tackles insert after soft-delete
  let tmpArray := if handleSoftDelete then
      tmpArray ++ [(pcols.softDeleteColName, MergeExpr.litFalse)]
    else tmpArray
  let updateStmt : UpdateClause :=
    { matchedRtEq2 := false, ut := cols, assigns := tmpArray }
  if handleSoftDelete then
    [updateStmt,
     { matchedRtEq2 := true, ut := cols,
       assigns := tmpArray.dropLast ++ [(pcols.softDeleteColName, MergeExpr.litTrue)] }]
  else
    [updateStmt]

/-- `generateUpdateStatements` (merge_stmt_generator.go lines 195-244). -/
def generateUpdateStatements (pcols : PeerDBColumns) (shortColumn : String → String)
    (allCols : List String) (unchangedToastColumns : List String) : List UpdateClause :=
  (unchangedToastColumns.map (updateClausesForGroup pcols shortColumn allCols)).flatten

/-- The `m.shortColumn` map built by the loop in `generateMergeStmt` (lines
131-137): column `i` of the normalized schema maps to `_c<i>`; a Go map
lookup of a missing key yields the zero value `""`, and for a repeated name
the later entry wins. -/
def shortColumnMap (columns : List String) (c : String) : String :=
  columns.enum.foldl
    (fun acc p => if p.2 = c then "_c" ++ toString p.1 else acc) ""

inductive RtCond where
  | ne2
  | eq2
  deriving Repr, DecidableEq

inductive MergeAction where
  | insertAction (cols : List String) (vals : List MergeExpr)
  | updateAction (assigns : List (String × MergeExpr))
  | deleteAction
  deriving Repr, DecidableEq

/-- One `WHEN ...` branch of the generated merge statement. -/
structure MergeClause where
  matched : Bool
  rtCond : RtCond
  utCond : Option String
  action : MergeAction
  deriving Repr, DecidableEq

/-- `generateMergeStmt` (merge_stmt_generator.go lines 125-178), embedded as
the ordered list of `WHEN` branches of the produced statement: the
`WHEN NOT MATCHED AND _d._rt!=2 THEN INSERT` branch, the update branches
from `generateUpdateStatements` (plus, when `SoftDelete` is set, the
`WHEN NOT MATCHED AND _d._rt=2 THEN INSERT` branch appended to them), and
the final `WHEN MATCHED AND _d._rt=2` branch whose action is `DELETE`, or an
`UPDATE` of the soft-delete column (and synced-at column when configured)
when `SoftDelete` is set. -/
def generateMergeClauses (pcols : PeerDBColumns) (columns : List String)
    (unchangedToastColumns : List String) : List MergeClause :=
  let shortColumn := shortColumnMap columns
  -- insertColumnsSQL / insertValuesSQL (lines 140-141): the synced-at
  -- column and CURRENT_TIMESTAMP are appended unconditionally.
  let insertColumns := columns ++ [pcols.syncedAtColName]
  let insertValues :=
    columns.map (fun c => MergeExpr.shortColRef (shortColumn c)) ++
      [MergeExpr.currentTimestamp]
  let updateStatementsforToastCols :=
    (generateUpdateStatements pcols shortColumn columns unchangedToastColumns).map
      (fun uc =>
        { matched := true
          rtCond := if uc.matchedRtEq2 then RtCond.eq2 else RtCond.ne2
          utCond := some uc.ut
          action := MergeAction.updateAction uc.assigns : MergeClause })
  let updateStatementsforToastCols :=
    if pcols.softDelete then
      updateStatementsforToastCols ++
        [{ matched := false, rtCond := RtCond.eq2, utCond := none
           action := MergeAction.insertAction
             (insertColumns ++ [pcols.softDeleteColName])
             (insertValues ++ [MergeExpr.litTrue]) }]
    else updateStatementsforToastCols
  let deletePart : MergeAction :=
    if pcols.softDelete then
      MergeAction.updateAction
        ((pcols.softDeleteColName, MergeExpr.litTrue) ::
          (if pcols.syncedAtColName ≠ "" then
            [(pcols.syncedAtColName, MergeExpr.currentTimestamp)]
          else []))
    else MergeAction.deleteAction
  ({ matched := false, rtCond := RtCond.ne2, utCond := none
     action := MergeAction.insertAction insertColumns insertValues } ::
    updateStatementsforToastCols) ++
  [{ matched := true, rtCond := RtCond.eq2, utCond := none, action := deletePart }]

/-- `cl` assigns value `e` to destination column `c`: for an `UPDATE`
branch, `c=e` occurs in its `SET` list; for an `INSERT` branch, `c` and `e`
are at matching positions of the column and value lists. -/
def setsCol (cl : MergeClause) (c : String) (e : MergeExpr) : Prop :=
  match cl.action with
  | MergeAction.updateAction assigns => (c, e) ∈ assigns
  | MergeAction.insertAction cols vals => (c, e) ∈ cols.zip vals
  | MergeAction.deleteAction => False

instance (cl : MergeClause) (c : String) (e : MergeExpr) :
    Decidable (setsCol cl c e) := by
  unfold setsCol; cases cl.action <;> infer_instance

/-- SQL semantics of one `UPDATE SET` assignment list over a destination
row, used to state column preservation: an assigned column takes its
assigned expression's value, every other column keeps its value. -/
def applyAssigns {V : Type} (eval : MergeExpr → V) (row : String → V)
    (assigns : List (String × MergeExpr)) : String → V :=
  fun c =>
    match assigns.find? (fun p => p.1 == c) with
    | some p => eval p.2
    | none => row c

/-! ## Generic SQL connector: `toQValue` / `toQValueArray`
(src/flow/connectors/sql/query_executor.go, lines 310-556)

Go `interface{}` values reaching the conversion layer are embedded as the
closed dynamic universe `GoVal`; the driver wrapper types (`sql.NullInt32`,
`*[]byte`, `*interface{}`, ...) are constructors of the same universe, since
the Go type switches dispatch on the dynamic type.  Float payloads are
carried as opaque bit patterns (`Nat`); no claim computes with them.
External library calls (`json.Unmarshal` into `[]interface{}`,
`big.Rat.SetString`, the `float32(...)` narrowing) are abstracted as the
`GoLib` parameter.  A failed Go type assertion `x.(T)` panics; a panic is
embedded as an `Except.error`. -/

inductive QValueKind where
  | int16
  | int32
  | int64
  | float32
  | float64
  | qchar
  | string
  | boolean
  | timestamp
  | timestampTZ
  | date
  | time
  | timeTZ
  | numeric
  | bytes
  | bit
  | uuid
  | json
  | hstore
  | geography
  | arrayFloat32
  | arrayFloat64
  | arrayInt16
  | arrayInt32
  | arrayInt64
  | arrayString
  deriving Repr, DecidableEq

/-- A JSON array element produced by `json.Unmarshal` into `[]interface{}`.
Every type switch the embedded code applies to such an element tests only
the primitive types below; any other element (a nested array, an object, a
`nil`) behaves identically under all of them and is collapsed to `other`. -/
inductive GoScalar where
  | str (s : String)
  | f32 (bits : Nat)
  | f64 (bits : Nat)
  | i16 (n : Int)
  | i32 (n : Int)
  | i64 (n : Int)
  | boolean (b : Bool)
  | other
  deriving Repr, DecidableEq

inductive GoVal where
  | str (s : String)
  | f32 (bits : Nat)
  | f64 (bits : Nat)
  | i16 (n : Int)
  | i32 (n : Int)
  | i64 (n : Int)
  | u8 (n : Nat)
  | boolean (b : Bool)
  /-- a `time.Time`, abstracted to an instant. -/
  | timeV (t : Int)
  /-- a `*big.Rat`. -/
  | ratV (q : Rat)
  /-- a `[]byte`. -/
  | bytes (bs : List Nat)
  /-- a `[16]byte`. -/
  | bytes16 (bs : List Nat)
  /-- a `[]interface{}` of JSON array elements. -/
  | arr (elems : List GoScalar)
  | arrF32 (xs : List Nat)
  | arrF64 (xs : List Nat)
  | arrI16 (xs : List Int)
  | arrI32 (xs : List Int)
  | arrI64 (xs : List Int)
  | arrStr (xs : List String)
  | nullStringV (valid : Bool) (s : String)
  | nullInt16V (valid : Bool) (n : Int)
  | nullInt32V (valid : Bool) (n : Int)
  | nullInt64V (valid : Bool) (n : Int)
  | nullFloat64V (valid : Bool) (bits : Nat)
  | nullBoolV (valid : Bool) (b : Bool)
  | nullTimeV (valid : Bool) (t : Int)
  /-- a non-nil `*[]byte`. -/
  | bytesPtr (bs : List Nat)
  /-- a non-nil `*[16]byte`. -/
  | bytes16Ptr (bs : List Nat)
  /-- a `*interface{}` whose pointee is a string. -/
  | ifaceStr (s : String)
  /-- a `*interface{}` whose pointee is not a string. -/
  | ifaceOther
  deriving Repr, DecidableEq

/-- `qvalue.QValue`; a Go `Value: nil` is `value := none`. -/
structure QValue where
  kind : QValueKind
  value : Option GoVal
  deriving Repr, DecidableEq

/-- External library functions used by `toQValue`, abstracted. -/
structure GoLib where
  /-- `json.Unmarshal([]byte(s), &v)` for `v []interface{}`; `none` is a
  parse error. -/
  jsonUnmarshalArr : String → Option (List GoScalar)
  /-- `new(big.Rat).SetString(s)`; `none` is a parse failure. -/
  ratSetString : String → Option Rat
  /-- the Go conversion `float32(x)` on our opaque float64 bit patterns. -/
  float64ToFloat32 : Nat → Nat

/-- lowercase hexadecimal digit. -/
def hexChar (n : Nat) : Char :=
  if n < 10 then Char.ofNat (48 + n) else Char.ofNat (87 + n)

/-- two-digit lowercase hexadecimal form of a byte. -/
def byteHex (b : Nat) : String :=
  String.mk [hexChar (b / 16 % 16), hexChar (b % 16)]

/-- Canonical hyphenated textual form of a 16-byte UUID
(8-4-4-4-12 lowercase hex digits). Modelled from the spec: §4.1 — UUID
bytes "are converted to their canonical hyphenated text form"; implements
`(uuid.UUID).String` of the `github.com/google/uuid` library, which is not
part of the provided sources. -/
def uuidString (bs : List Nat) : String :=
  String.join ((bs.take 4).map byteHex) ++ "-" ++
  String.join (((bs.drop 4).take 2).map byteHex) ++ "-" ++
  String.join (((bs.drop 6).take 2).map byteHex) ++ "-" ++
  String.join (((bs.drop 8).take 2).map byteHex) ++ "-" ++
  String.join ((bs.drop 10).map byteHex)

/-- `uuid.FromBytes`. Modelled from the spec: the `github.com/google/uuid`
library is not part of the provided sources; `FromBytes` fails exactly when
the slice is not 16 bytes long, and the resulting UUID prints in canonical
hyphenated form. -/
def uuidFromBytes (bs : List Nat) : Option String :=
  if bs.length = 16 then some (uuidString bs) else none

/-- Element-wise Go type assertion over a `[]interface{}` (the loops
`xArray[i] = val.(T)` in `toQValueArray`); a mismatched element panics. -/
def assertElems {α : Type} (f : GoScalar → Option α) : List GoScalar →
    Except String (List α)
  | [] => Except.ok []
  | v :: rest =>
    match f v with
    | none => Except.error "panic: interface conversion"
    | some x => (assertElems f rest).map (fun xs => x :: xs)

def asFloat32 : GoScalar → Option Nat
  | GoScalar.f32 b => some b
  | _ => none

def asFloat64 : GoScalar → Option Nat
  | GoScalar.f64 b => some b
  | _ => none

def asInt16 : GoScalar → Option Int
  | GoScalar.i16 n => some n
  | _ => none

def asInt32 : GoScalar → Option Int
  | GoScalar.i32 n => some n
  | _ => none

def asInt64 : GoScalar → Option Int
  | GoScalar.i64 n => some n
  | _ => none

def asString : GoScalar → Option String
  | GoScalar.str s => some s
  | _ => none

/-- `toQValueArray` (query_executor.go lines 467-556).  `result` starts as
`nil`; kinds outside the six array cases leave it `nil` and return no
error. -/
def toQValueArray (kind : QValueKind) (value : GoVal) : Except String QValue :=
  match kind with
  | QValueKind.arrayFloat32 =>
    match value with
    | GoVal.arrF32 xs => Except.ok ⟨QValueKind.arrayFloat32, some (GoVal.arrF32 xs)⟩
    | GoVal.arr v =>
      (assertElems asFloat32 v).map
        (fun xs => ⟨QValueKind.arrayFloat32, some (GoVal.arrF32 xs)⟩)
    | _ => Except.error "failed to parse array float32"
  | QValueKind.arrayFloat64 =>
    match value with
    | GoVal.arrF64 xs => Except.ok ⟨QValueKind.arrayFloat64, some (GoVal.arrF64 xs)⟩
    | GoVal.arr v =>
      (assertElems asFloat64 v).map
        (fun xs => ⟨QValueKind.arrayFloat64, some (GoVal.arrF64 xs)⟩)
    | _ => Except.error "failed to parse array float64"
  | QValueKind.arrayInt16 =>
    match value with
    | GoVal.arrI16 xs => Except.ok ⟨QValueKind.arrayInt16, some (GoVal.arrI16 xs)⟩
    | GoVal.arr v =>
      (assertElems asInt16 v).map
        (fun xs => ⟨QValueKind.arrayInt16, some (GoVal.arrI16 xs)⟩)
    | _ => Except.error "failed to parse array int16"
  | QValueKind.arrayInt32 =>
    match value with
    | GoVal.arrI32 xs => Except.ok ⟨QValueKind.arrayInt32, some (GoVal.arrI32 xs)⟩
    | GoVal.arr v =>
      (assertElems asInt32 v).map
        (fun xs => ⟨QValueKind.arrayInt32, some (GoVal.arrI32 xs)⟩)
    | _ => Except.error "failed to parse array int32"
  | QValueKind.arrayInt64 =>
    match value with
    | GoVal.arrI64 xs => Except.ok ⟨QValueKind.arrayInt64, some (GoVal.arrI64 xs)⟩
    | GoVal.arr v =>
      (assertElems asInt64 v).map
        (fun xs => ⟨QValueKind.arrayInt64, some (GoVal.arrI64 xs)⟩)
    | _ => Except.error "failed to parse array int64"
  | QValueKind.arrayString =>
    match value with
    | GoVal.arrStr xs => Except.ok ⟨QValueKind.arrayString, some (GoVal.arrStr xs)⟩
    | GoVal.arr v =>
      (assertElems asString v).map
        (fun xs => ⟨QValueKind.arrayString, some (GoVal.arrStr xs)⟩)
    | _ => Except.error "failed to parse array string"
  | _ => Except.ok ⟨kind, none⟩

/-- The array-kind selection of the JSON branch (query_executor.go lines
430-445): `kind` starts as `QValueKindString` and is reassigned from the
runtime type of the first element. -/
def classifyJsonArrayKind (first : GoScalar) : QValueKind :=
  match first with
  | GoScalar.f32 _ => QValueKind.arrayFloat32
  | GoScalar.f64 _ => QValueKind.arrayFloat64
  | GoScalar.i16 _ => QValueKind.arrayInt16
  | GoScalar.i32 _ => QValueKind.arrayInt32
  | GoScalar.i64 _ => QValueKind.arrayInt64
  | GoScalar.str _ => QValueKind.arrayString
  | _ => QValueKind.string

/-- `strings.HasPrefix(s, "[")`, written on the character list so that it
evaluates by kernel reduction. -/
def hasBracketOpen (s : String) : Bool :=
  match s.data with
  | c :: _ => c = '['
  | [] => false

/-- The `QValueKindJSON` case of `toQValue` (lines 413-451) after the
`(*vraw).(string)` extraction produced `vstring`. -/
def jsonKindBranch (lib : GoLib) (vstring : String) : Except String QValue :=
  if hasBracketOpen vstring then
    match lib.jsonUnmarshalArr vstring with
    | none => Except.error ("failed to parse json array: " ++ vstring)
    | some v =>
      -- assume all elements in the array are of the same type
      -- based on the first element, determine the type
      match v with
      | [] => Except.ok ⟨QValueKind.json, some (GoVal.str vstring)⟩
      | first :: _ => toQValueArray (classifyJsonArrayKind first) (GoVal.arr v)
  else
    Except.ok ⟨QValueKind.json, some (GoVal.str vstring)⟩

/-- `toQValue` (query_executor.go lines 310-465).  Each kind case returns
when its type assertion succeeds and otherwise falls through to the common
`unsupported type ... for kind ...` error. -/
def toQValue (lib : GoLib) (kind : QValueKind) (val : Option GoVal) :
    Except String QValue :=
  match val with
  | none => Except.ok ⟨kind, none⟩
  | some v =>
    match kind with
    | QValueKind.int32 =>
      match v with
      | GoVal.nullInt32V true n => Except.ok ⟨QValueKind.int32, some (GoVal.i32 n)⟩
      | GoVal.nullInt32V false _ => Except.ok ⟨QValueKind.int32, none⟩
      | _ => Except.error "unsupported type for kind int32"
    | QValueKind.int64 =>
      match v with
      | GoVal.nullInt64V true n => Except.ok ⟨QValueKind.int64, some (GoVal.i64 n)⟩
      | GoVal.nullInt64V false _ => Except.ok ⟨QValueKind.int64, none⟩
      | _ => Except.error "unsupported type for kind int64"
    | QValueKind.float32 =>
      match v with
      | GoVal.nullFloat64V true bits =>
        Except.ok ⟨QValueKind.float32, some (GoVal.f32 (lib.float64ToFloat32 bits))⟩
      | GoVal.nullFloat64V false _ => Except.ok ⟨QValueKind.float32, none⟩
      | _ => Except.error "unsupported type for kind float32"
    | QValueKind.float64 =>
      match v with
      | GoVal.nullFloat64V true bits =>
        Except.ok ⟨QValueKind.float64, some (GoVal.f64 bits)⟩
      | GoVal.nullFloat64V false _ => Except.ok ⟨QValueKind.float64, none⟩
      | _ => Except.error "unsupported type for kind float64"
    | QValueKind.qchar =>
      match v with
      | GoVal.u8 n => Except.ok ⟨QValueKind.qchar, some (GoVal.u8 n)⟩
      | _ => Except.error "unsupported type for kind qchar"
    | QValueKind.string =>
      match v with
      | GoVal.nullStringV true s => Except.ok ⟨QValueKind.string, some (GoVal.str s)⟩
      | GoVal.nullStringV false _ => Except.ok ⟨QValueKind.string, none⟩
      | _ => Except.error "unsupported type for kind string"
    | QValueKind.boolean =>
      match v with
      | GoVal.nullBoolV true b => Except.ok ⟨QValueKind.boolean, some (GoVal.boolean b)⟩
      | GoVal.nullBoolV false _ => Except.ok ⟨QValueKind.boolean, none⟩
      | _ => Except.error "unsupported type for kind boolean"
    | QValueKind.timestamp | QValueKind.timestampTZ | QValueKind.date
    | QValueKind.time | QValueKind.timeTZ =>
      match v with
      | GoVal.nullTimeV true t => Except.ok ⟨kind, some (GoVal.timeV t)⟩
      | GoVal.nullTimeV false _ => Except.ok ⟨kind, none⟩
      | _ => Except.error "unsupported type for time kind"
    | QValueKind.numeric =>
      match v with
      | GoVal.nullStringV true s =>
        match lib.ratSetString s with
        | none => Except.error ("failed to parse numeric: " ++ s)
        | some q => Except.ok ⟨QValueKind.numeric, some (GoVal.ratV q)⟩
      | GoVal.nullStringV false _ => Except.ok ⟨QValueKind.numeric, none⟩
      | _ => Except.error "unsupported type for kind numeric"
    | QValueKind.bytes | QValueKind.bit =>
      match v with
      | GoVal.bytesPtr bs => Except.ok ⟨kind, some (GoVal.bytes bs)⟩
      | _ => Except.error "unsupported type for bytes kind"
    | QValueKind.uuid =>
      match v with
      | GoVal.bytesPtr bs =>
        -- convert byte array to string
        match uuidFromBytes bs with
        | none => Except.error "failed to parse uuid"
        | some u => Except.ok ⟨QValueKind.string, some (GoVal.str u)⟩
      | GoVal.bytes16Ptr bs => Except.ok ⟨QValueKind.string, some (GoVal.bytes16 bs)⟩
      | _ => Except.error "unsupported type for kind uuid"
    | QValueKind.json =>
      match v with
      | GoVal.ifaceStr s => jsonKindBranch lib s
      -- a non-string pointee only logs a warning; `vstring` stays `""`
      | GoVal.ifaceOther => jsonKindBranch lib ""
      -- `val.(*interface{})` without the ok-form panics on any other type
      | _ => Except.error "panic: interface conversion"
    | QValueKind.hstore => Except.ok ⟨QValueKind.hstore, some v⟩
    | QValueKind.arrayFloat32 | QValueKind.arrayFloat64 | QValueKind.arrayInt16
    | QValueKind.arrayInt32 | QValueKind.arrayInt64 | QValueKind.arrayString =>
      toQValueArray kind v
    | _ => Except.error "unsupported type for kind"

/-! ## Theorems -/

/-- C1: the spec demands that a successful normalization pass over the
non-empty pending range `(last_normalize_batch_id, last_sync_batch_id]`
persist `last_sync_batch_id` as the new normalize batch id.  The code
instead persists `normBatchID + 1` (normalize.go line 235) even though its
insert-selects consumed the whole range: with stored id `0` and sync batch
id `3` the pass applies `(0, 3]`, reports `Done`, and persists `1`, not
`3`. -/
theorem c1_persisted_id_not_sync_id :
    (chNormalizeStep 0 3).applied = some (0, 3) ∧
    (chNormalizeStep 0 3).response.done = true ∧
    (chNormalizeStep 0 3).newNormBatchID = 1 ∧
    (chNormalizeStep 0 3).newNormBatchID ≠ 3 := by
  decide

/-- C10: when the stored normalize batch id has caught up with the
requested sync batch id, `NormalizeRecords` returns `Done = false` echoing
the ids, executes no insert into any destination table, and leaves the
stored normalize batch id unchanged. -/
theorem c10_normalize_noop_when_caught_up (norm sync : Int) (h : norm ≥ sync) :
    chNormalizeStep norm sync =
      { response := { done := false, startBatchID := norm, endBatchID := sync }
        newNormBatchID := norm
        applied := none } := by
  simp [chNormalizeStep, h]

/-- Witness for C10 at `norm = 5`, `sync = 3`. -/
theorem c10_normalize_noop_when_caught_up_witness :
    (5 : Int) ≥ 3 ∧
    chNormalizeStep 5 3 =
      { response := { done := false, startBatchID := 5, endBatchID := 3 }
        newNormBatchID := 5
        applied := none } :=
  ⟨by decide, c10_normalize_noop_when_caught_up 5 3 (by decide)⟩

/-- C2: across any sequence of `NormalizeRecords` invocations whose sync
batch ids are non-decreasing and start at or above the stored normalize
batch id, the stored normalize batch id never decreases, never exceeds the
current sync batch id, and each invocation's generated queries select
exactly the raw records whose batch id lies in the half-open range
`(stored normalize id, requested sync id]`. -/
theorem c2_batch_counter_monotone (norm0 : Int) (syncs : List Int)
    (hchain : List.Chain' (· ≤ ·) syncs)
    (hinit : ∀ s, syncs.head? = some s → norm0 ≤ s) :
    normRunOK norm0 syncs := by
  induction syncs generalizing norm0 with
  | nil => trivial
  | cons s rest ih =>
    have h0 : norm0 ≤ s := hinit s rfl
    have hrest : List.Chain' (· ≤ ·) rest := hchain.tail
    by_cases hge : norm0 ≥ s
    · refine ⟨?_, ?_, ?_, ?_⟩ <;>
        simp only [normRunOK, chNormalizeStep, if_pos hge]
      · exact le_refl _
      · omega
      · intro range hr; simp at hr
      · exact ih norm0 hrest (by
          intro s' hs'
          cases rest with
          | nil => simp at hs'
          | cons a t =>
            simp only [List.head?_cons, Option.some.injEq] at hs'
            have hsa : s ≤ a := (List.chain'_cons.mp hchain).1
            omega)
    · refine ⟨?_, ?_, ?_, ?_⟩ <;>
        simp only [normRunOK, chNormalizeStep, if_neg hge]
      · omega
      · omega
      · intro range hr
        simp only [Option.some.injEq] at hr
        subst hr
        intro b
        exact Iff.rfl
      · exact ih (norm0 + 1) hrest (by
          intro s' hs'
          cases rest with
          | nil => simp at hs'
          | cons a t =>
            simp only [List.head?_cons, Option.some.injEq] at hs'
            have hsa : s ≤ a := (List.chain'_cons.mp hchain).1
            omega)

/-- Witness for C2 at `norm0 = 0`, sync ids `[1, 3]`. -/
theorem c2_batch_counter_monotone_witness : normRunOK 0 [1, 3] :=
  c2_batch_counter_monotone 0 [1, 3]
    (List.chain'_cons.mpr ⟨by norm_num, List.chain'_singleton 3⟩)
    (by intro s hs; simp only [List.head?_cons, Option.some.injEq] at hs; omega)

/-! ### Chunking lemmas -/

theorem chunkLoopGo_nil {α : Type} (c fuel : Nat) :
    chunkLoopGo c fuel ([] : List α) = [] := by
  cases fuel <;> rfl

theorem chunkLoopGo_flatten {α : Type} (c : Nat) (hc : c ≠ 0) :
    ∀ (fuel : Nat) (l : List α), l.length ≤ fuel →
      (chunkLoopGo c fuel l).flatten = l := by
  intro fuel
  induction fuel with
  | zero =>
    intro l hl
    cases l with
    | nil => simp [chunkLoopGo]
    | cons p ps => simp at hl
  | succ n ih =>
    intro l hl
    cases l with
    | nil => simp [chunkLoopGo]
    | cons p ps =>
      simp only [chunkLoopGo, if_neg hc, List.flatten_cons]
      rw [ih]
      · exact List.take_append_drop c (p :: ps)
      · have hc1 : 1 ≤ c := Nat.one_le_iff_ne_zero.mpr hc
        simp only [List.length_drop, List.length_cons]
        simp only [List.length_cons] at hl
        omega

theorem chunkLoopGo_length_le {α : Type} (c : Nat) (hc : c ≠ 0) :
    ∀ (fuel w : Nat) (l : List α), l.length ≤ fuel → l.length ≤ c * w →
      (chunkLoopGo c fuel l).length ≤ w := by
  intro fuel
  induction fuel with
  | zero =>
    intro w l hl _
    cases l with
    | nil => simp [chunkLoopGo]
    | cons p ps => simp at hl
  | succ n ih =>
    intro w l hfuel hw
    cases l with
    | nil => simp [chunkLoopGo]
    | cons p ps =>
      cases w with
      | zero => simp at hw
      | succ w' =>
        simp only [chunkLoopGo, if_neg hc, List.length_cons]
        have hc1 : 1 ≤ c := Nat.one_le_iff_ne_zero.mpr hc
        refine Nat.succ_le_succ (ih w' _ ?_ ?_)
        · simp only [List.length_drop, List.length_cons]
          simp only [List.length_cons] at hfuel
          omega
        · simp only [List.length_drop, List.length_cons]
          rw [Nat.mul_succ] at hw
          simp only [List.length_cons] at hw
          generalize c * w' = t at hw ⊢
          omega

theorem chunkLoopGo_mem_length {α : Type} (c : Nat) (hc : c ≠ 0) :
    ∀ (fuel : Nat) (l g : List α), g ∈ chunkLoopGo c fuel l →
      1 ≤ g.length ∧ g.length ≤ c := by
  intro fuel
  induction fuel with
  | zero =>
    intro l g hg
    cases l <;> simp [chunkLoopGo] at hg
  | succ n ih =>
    intro l g hg
    cases l with
    | nil => simp [chunkLoopGo] at hg
    | cons p ps =>
      simp only [chunkLoopGo, if_neg hc, List.mem_cons] at hg
      rcases hg with rfl | hg
      · have hc1 : 1 ≤ c := Nat.one_le_iff_ne_zero.mpr hc
        simp only [List.length_take, List.length_cons]
        omega
      · exact ih _ g hg

theorem chunkLoopGo_ne_nil_of_mem {α : Type} (c : Nat) :
    ∀ (fuel : Nat) (l : List α), chunkLoopGo c fuel l ≠ [] → l ≠ [] := by
  intro fuel l h hl
  subst hl
  exact h (chunkLoopGo_nil c fuel)

theorem chunkLoopGo_dropLast_length {α : Type} (c : Nat) (hc : c ≠ 0) :
    ∀ (fuel : Nat) (l g : List α), g ∈ (chunkLoopGo c fuel l).dropLast →
      g.length = c := by
  intro fuel
  induction fuel with
  | zero =>
    intro l g hg
    cases l <;> simp [chunkLoopGo] at hg
  | succ n ih =>
    intro l g hg
    cases l with
    | nil => simp [chunkLoopGo] at hg
    | cons p ps =>
      simp only [chunkLoopGo, if_neg hc] at hg
      rcases hrest : chunkLoopGo c n ((p :: ps).drop c) with _ | ⟨r, rs⟩
      · rw [hrest] at hg
        simp at hg
      · rw [hrest] at hg
        rw [List.dropLast_cons_of_ne_nil (by simp)] at hg
        rcases List.mem_cons.mp hg with rfl | hg'
        · have hne : (p :: ps).drop c ≠ [] :=
            chunkLoopGo_ne_nil_of_mem c n _ (by rw [hrest]; simp)
          have hlen : c < (p :: ps).length := by
            by_contra hle
            push_neg at hle
            exact hne (List.drop_eq_nil_of_le hle)
          simp only [List.length_take]
          omega
        · exact ih _ g (by rw [hrest]; exact hg')

theorem le_mul_divCeil (x y : Nat) (hy : y ≠ 0) : x ≤ y * DivCeil x y := by
  unfold DivCeil
  have h := Nat.div_add_mod (x + y - 1) y
  have h2 : (x + y - 1) % y < y := Nat.mod_lt _ (Nat.pos_of_ne_zero hy)
  generalize (x + y - 1) / y = q at h ⊢
  generalize (x + y - 1) % y = r at h h2
  have hy1 : 1 ≤ y := Nat.one_le_iff_ne_zero.mpr hy
  generalize y * q = t at h ⊢
  omega

/-- C5 counterexample: with `P = 7` partitions and `W = 3` workers the
ceiling-division chunking of `processPartitions` produces groups of sizes
`3, 3, 1`; the first and last group differ in size by `2`, refuting
"any two groups' sizes differ by at most 1". -/
theorem c5_chunk_sizes_counterexample :
    processPartitionsBatches 3 [1, 2, 3, 4, 5, 6, 7] =
      some [[1, 2, 3], [4, 5, 6], [7]] ∧
    ¬ (∀ g1 ∈ [[1, 2, 3], [4, 5, 6], ([7] : List Nat)],
        ∀ g2 ∈ [[1, 2, 3], [4, 5, 6], ([7] : List Nat)],
        g1.length ≤ g2.length + 1 ∧ g2.length ≤ g1.length + 1) := by
  decide

/-- C5 amended: for `W ≥ 1` workers and an empty partition list,
`processPartitions` panics (integer divide by zero in the slice capacity
computation `len(partitions)/chunkSize+1`, since `chunkSize = ⌈0/W⌉ = 0`);
whenever it does return, it produces at most `W` groups whose in-order
concatenation is the original partition list, every group is non-empty
with at most `⌈P/W⌉` elements, and every group except possibly the last
has exactly `⌈P/W⌉` elements (the last group may be smaller by more than
1, so group sizes need not differ by at most 1 pairwise). -/
theorem c5_chunking_amended {α : Type} (maxParallelWorkers : Nat)
    (partitions : List α) (hW : 1 ≤ maxParallelWorkers) :
    (partitions = [] →
      processPartitionsBatches maxParallelWorkers partitions = none) ∧
    (∀ batches,
      processPartitionsBatches maxParallelWorkers partitions = some batches →
      batches.length ≤ maxParallelWorkers ∧
      batches.flatten = partitions ∧
      (∀ g ∈ batches,
        1 ≤ g.length ∧
          g.length ≤ DivCeil partitions.length maxParallelWorkers) ∧
      (∀ g ∈ batches.dropLast,
        g.length = DivCeil partitions.length maxParallelWorkers)) := by
  constructor
  · rintro rfl
    have h0 : DivCeil 0 maxParallelWorkers = 0 := by
      unfold DivCeil
      simp only [Nat.zero_add]
      exact Nat.div_eq_of_lt (by omega)
    unfold processPartitionsBatches
    simp [h0]
  · intro batches h
    unfold processPartitionsBatches at h
    by_cases hc : DivCeil partitions.length maxParallelWorkers = 0
    · simp [hc] at h
    · simp only [hc, if_false, Option.some.injEq] at h
      subst h
      refine ⟨?_, ?_, ?_, ?_⟩
      · exact chunkLoopGo_length_le _ hc _ _ _ (le_refl _)
          (by
            have := le_mul_divCeil partitions.length maxParallelWorkers (by omega)
            calc partitions.length
                ≤ maxParallelWorkers * DivCeil partitions.length maxParallelWorkers :=
                  this
              _ = DivCeil partitions.length maxParallelWorkers * maxParallelWorkers :=
                  Nat.mul_comm _ _)
      · exact chunkLoopGo_flatten _ hc _ _ (le_refl _)
      · intro g hg
        exact chunkLoopGo_mem_length _ hc _ _ g hg
      · intro g hg
        exact chunkLoopGo_dropLast_length _ hc _ _ g hg

/-- Witness for C5 amended at `W = 3`, partitions `[1,2,3,4,5,6,7]`. -/
theorem c5_chunking_amended_witness :
    1 ≤ 3 ∧
    ((([1, 2, 3, 4, 5, 6, 7] : List Nat) = [] →
       processPartitionsBatches 3 [1, 2, 3, 4, 5, 6, 7] = none) ∧
     (∀ batches,
       processPartitionsBatches 3 [1, 2, 3, 4, 5, 6, 7] = some batches →
       batches.length ≤ 3 ∧
       batches.flatten = [1, 2, 3, 4, 5, 6, 7] ∧
       (∀ g ∈ batches, 1 ≤ g.length ∧ g.length ≤ DivCeil 7 3) ∧
       (∀ g ∈ batches.dropLast, g.length = DivCeil 7 3))) :=
  ⟨by decide, c5_chunking_amended 3 [1, 2, 3, 4, 5, 6, 7] (by decide)⟩

/-! ### Pause/resume lemmas -/

theorem pauseLoop_eq_some {activeSignal : FlowSignal} {sigs : List FlowSignal}
    {st st' : QRepFlowState} (h : pauseLoop activeSignal sigs st = some st') :
    st' = st := by
  induction sigs generalizing activeSignal with
  | nil =>
    unfold pauseLoop at h
    by_cases ha : activeSignal = FlowSignal.pause
    · simp [ha] at h
    · simp only [if_neg ha, Option.some.injEq] at h
      exact h.symm
  | cons s rest ih =>
    unfold pauseLoop at h
    by_cases ha : activeSignal = FlowSignal.pause
    · rw [if_pos ha] at h
      exact ih h
    · simp only [if_neg ha, Option.some.injEq] at h
      exact h.symm

/-- C6 counterexample: a `pause` signal followed by a `resume` signal leaves
the continued `FlowState` with `CurrentFlowStatus = STATUS_PAUSED` — the
workflow sets the status when it observes the pause and never restores it on
resume — so the carried state is not byte-identical to its pre-pause value. -/
theorem c6_pause_resume_counterexample :
    signalTail
        { lastPartition := { partitionId := "p1", range := some 7 }
          numPartitionsProcessed := 5
          needsResync := false
          disableWaitForNewRows := false
          currentFlowStatus := FlowStatus.running }
        [FlowSignal.pause, FlowSignal.resume] =
      some
        { lastPartition := { partitionId := "p1", range := some 7 }
          numPartitionsProcessed := 5
          needsResync := false
          disableWaitForNewRows := false
          currentFlowStatus := FlowStatus.paused } ∧
    ({ lastPartition := { partitionId := "p1", range := some 7 }
       numPartitionsProcessed := 5
       needsResync := false
       disableWaitForNewRows := false
       currentFlowStatus := FlowStatus.paused } : QRepFlowState) ≠
      { lastPartition := { partitionId := "p1", range := some 7 }
        numPartitionsProcessed := 5
        needsResync := false
        disableWaitForNewRows := false
        currentFlowStatus := FlowStatus.running } := by
  decide

/-- C6 amended: whatever signals arrive, the signal-handling tail of the
workflow changes no field of `FlowState` other than `CurrentFlowStatus`:
the checkpoint (`LastPartition`), the counter (`NumPartitionsProcessed`),
`NeedsResync` and `DisableWaitForNewRows` are carried into the continuation
unchanged, and the state is either fully unchanged or differs exactly by
`CurrentFlowStatus` having been set to `STATUS_PAUSED` when a pause was
observed. -/
theorem c6_pause_resume_amended (st : QRepFlowState) (sigs : List FlowSignal)
    (st' : QRepFlowState) (h : signalTail st sigs = some st') :
    st'.lastPartition = st.lastPartition ∧
    st'.numPartitionsProcessed = st.numPartitionsProcessed ∧
    st'.needsResync = st.needsResync ∧
    st'.disableWaitForNewRows = st.disableWaitForNewRows ∧
    (st' = st ∨
      st' = { st with currentFlowStatus := FlowStatus.paused }) := by
  unfold signalTail at h
  set activeSignal :=
    (match sigs with
     | [] => FlowSignal.noop
     | s :: _ => FlowSignalHandler FlowSignal.noop s) with ha
  by_cases hp : activeSignal = FlowSignal.pause
  · rw [if_pos hp] at h
    have h2 := pauseLoop_eq_some h
    subst h2
    exact ⟨rfl, rfl, rfl, rfl, Or.inr rfl⟩
  · rw [if_neg hp] at h
    have h2 : st = st' := Option.some.injEq _ _ ▸ h
    subst h2
    exact ⟨rfl, rfl, rfl, rfl, Or.inl rfl⟩

/-- Witness for C6 amended: a pause followed by a resume starting from a
running state. -/
theorem c6_pause_resume_amended_witness :
    signalTail
        { lastPartition := { partitionId := "p1", range := some 7 }
          numPartitionsProcessed := 5
          needsResync := false
          disableWaitForNewRows := false
          currentFlowStatus := FlowStatus.running }
        [FlowSignal.pause, FlowSignal.resume] =
      some
        { lastPartition := { partitionId := "p1", range := some 7 }
          numPartitionsProcessed := 5
          needsResync := false
          disableWaitForNewRows := false
          currentFlowStatus := FlowStatus.paused } ∧
    (({ lastPartition := { partitionId := "p1", range := some 7 }
        numPartitionsProcessed := 5
        needsResync := false
        disableWaitForNewRows := false
        currentFlowStatus := FlowStatus.paused } : QRepFlowState).lastPartition =
      { partitionId := "p1", range := some 7 }) :=
  ⟨by decide,
   (c6_pause_resume_amended
      { lastPartition := { partitionId := "p1", range := some 7 }
        numPartitionsProcessed := 5
        needsResync := false
        disableWaitForNewRows := false
        currentFlowStatus := FlowStatus.running }
      [FlowSignal.pause, FlowSignal.resume]
      { lastPartition := { partitionId := "p1", range := some 7 }
        numPartitionsProcessed := 5
        needsResync := false
        disableWaitForNewRows := false
        currentFlowStatus := FlowStatus.paused }
      (by decide)).1⟩

/-- C9 counterexample: the claim requires `needs_resync = false` when
full-resync is not configured, but `NewQRepFlowState` consults no
configuration and always sets `NeedsResync` to `true`. -/
theorem c9_needs_resync_counterexample :
    ¬ (NewQRepFlowState.needsResync = false) := by
  decide

/-- C9 amended: the initial `FlowState` built by `NewQRepFlowState` has
status `Running`, the sentinel last partition (`"not-applicable-partition"`
with a nil range), zero partitions processed, and `needs_resync`
unconditionally `true` (the full-resync configuration is consulted only
later, by `handleTableCreationForResync`, which requires both
`state.NeedsResync` and `config.DstTableFullResync`). -/
theorem c9_initial_state_amended :
    NewQRepFlowState.currentFlowStatus = FlowStatus.running ∧
    NewQRepFlowState.lastPartition =
      { partitionId := "not-applicable-partition", range := none } ∧
    NewQRepFlowState.numPartitionsProcessed = 0 ∧
    NewQRepFlowState.needsResync = true := by
  decide

/-! ### Merge generator lemmas -/

/-- Closed form of `updateClausesForGroup`. -/
theorem updateClausesForGroup_shape (pcols : PeerDBColumns)
    (shortColumn : String → String) (allCols : List String) (g : String) :
    updateClausesForGroup pcols shortColumn allCols g =
      (let A := ((ArrayMinus allCols (g.splitOn ",")).map
          (fun colName => (colName, MergeExpr.shortColRef (shortColumn colName)))) ++
        (if pcols.syncedAtColName ≠ "" then
          [(pcols.syncedAtColName, MergeExpr.currentTimestamp)] else []) ++
        (if pcols.softDelete && pcols.softDeleteColName ≠ "" then
          [(pcols.softDeleteColName, MergeExpr.litFalse)] else [])
      if pcols.softDelete && pcols.softDeleteColName ≠ "" then
        [{ matchedRtEq2 := false, ut := g, assigns := A },
         { matchedRtEq2 := true, ut := g
           assigns := A.dropLast ++
             [(pcols.softDeleteColName, MergeExpr.litTrue)] }]
      else
        [{ matchedRtEq2 := false, ut := g, assigns := A }]) := by
  unfold updateClausesForGroup
  cases hb : pcols.softDelete <;>
    by_cases hn : pcols.softDeleteColName = "" <;>
      by_cases hsy : pcols.syncedAtColName = "" <;>
        simp [hb, hn, hsy, List.append_assoc]

theorem mem_generateUpdateStatements {pcols : PeerDBColumns}
    {shortColumn : String → String} {allCols unchangedToastColumns : List String}
    {uc : UpdateClause}
    (h : uc ∈ generateUpdateStatements pcols shortColumn allCols unchangedToastColumns) :
    ∃ g ∈ unchangedToastColumns,
      uc ∈ updateClausesForGroup pcols shortColumn allCols g := by
  unfold generateUpdateStatements at h
  rcases List.mem_flatten.mp h with ⟨cl, hcl, hu⟩
  rcases List.mem_map.mp hcl with ⟨g, hg, rfl⟩
  exact ⟨g, hg, hu⟩

theorem mem_ArrayMinus (first second : List String) (c : String) :
    c ∈ ArrayMinus first second ↔ c ∈ first ∧ c ∉ second := by
  simp [ArrayMinus, List.mem_filter]

theorem map_fst_tagged (f : String → MergeExpr) (L : List String) :
    (L.map (fun colName => (colName, f colName))).map Prod.fst = L := by
  induction L with
  | nil => rfl
  | cons a t ih => simp [ih]

theorem updateClausesForGroup_first (pcols : PeerDBColumns)
    (shortColumn : String → String) (allCols : List String) (g : String) :
    ∃ uc ∈ updateClausesForGroup pcols shortColumn allCols g,
      uc.matchedRtEq2 = false ∧ uc.ut = g := by
  rw [updateClausesForGroup_shape]
  by_cases hsd : (pcols.softDelete && decide (pcols.softDeleteColName ≠ "")) = true
  · exact ⟨_, by rw [if_pos hsd]; exact List.mem_cons_self _ _, rfl, rfl⟩
  · exact ⟨_, by rw [if_neg hsd]; exact List.mem_cons_self _ _, rfl, rfl⟩

/-- C3: for every non-delete (`_rt!=2`) update clause generated for an
unchanged-toast-columns group `U`, the set of assigned destination columns
is exactly the schema columns not in `U`, plus the synced-at column, plus
(when soft-delete is configured with a column name) the soft-delete column;
consequently, applying the clause leaves every column of `U` (other than
those two bookkeeping columns) at its pre-existing value.  Such a clause
exists for every group. -/
theorem c3_unchanged_columns_preserved (pcols : PeerDBColumns)
    (shortColumn : String → String) (allCols unchangedToastColumns : List String)
    (hsync : pcols.syncedAtColName ≠ "") :
    (∀ g ∈ unchangedToastColumns,
      ∃ uc ∈ generateUpdateStatements pcols shortColumn allCols
          unchangedToastColumns,
        uc.matchedRtEq2 = false ∧ uc.ut = g) ∧
    (∀ uc ∈ generateUpdateStatements pcols shortColumn allCols
        unchangedToastColumns,
      uc.matchedRtEq2 = false →
        (∀ c : String, (c ∈ uc.assigns.map Prod.fst) ↔
          ((c ∈ allCols ∧ c ∉ uc.ut.splitOn ",") ∨
           c = pcols.syncedAtColName ∨
           (pcols.softDelete = true ∧ pcols.softDeleteColName ≠ "" ∧
             c = pcols.softDeleteColName))) ∧
        (∀ (V : Type) (eval : MergeExpr → V) (row : String → V) (c : String),
          c ∈ uc.ut.splitOn "," → c ≠ pcols.syncedAtColName →
          c ≠ pcols.softDeleteColName →
          applyAssigns eval row uc.assigns c = row c)) := by
  constructor
  · intro g hg
    rcases updateClausesForGroup_first pcols shortColumn allCols g with
      ⟨uc, hu, hf, hut⟩
    refine ⟨uc, ?_, hf, hut⟩
    unfold generateUpdateStatements
    exact List.mem_flatten.mpr ⟨_, List.mem_map.mpr ⟨g, hg, rfl⟩, hu⟩
  · intro uc hmem hfalse
    rcases mem_generateUpdateStatements hmem with ⟨g, _hg, hu⟩
    rw [updateClausesForGroup_shape] at hu
    by_cases hsd : (pcols.softDelete && decide (pcols.softDeleteColName ≠ "")) = true
    · obtain ⟨hb, hne⟩ : pcols.softDelete = true ∧ pcols.softDeleteColName ≠ "" := by
        simpa using hsd
      rw [if_pos hsd] at hu
      simp only [List.mem_cons, List.not_mem_nil, or_false] at hu
      rcases hu with rfl | rfl
      · constructor
        · intro c
          simp only [if_pos hsync, if_pos hsd, List.map_append, map_fst_tagged,
            List.map_cons, List.map_nil, List.mem_append, mem_ArrayMinus,
            List.mem_singleton, List.not_mem_nil, or_false]
          constructor
          · rintro ((h | h) | h)
            · exact Or.inl h
            · exact Or.inr (Or.inl h)
            · exact Or.inr (Or.inr ⟨hb, hne, h⟩)
          · rintro (h | h | ⟨_, _, h⟩)
            · exact Or.inl (Or.inl h)
            · exact Or.inl (Or.inr h)
            · exact Or.inr h
        · intro V eval row c hcU hcsync hcsd
          unfold applyAssigns
          rw [List.find?_eq_none.mpr ?_]
          · intro x hx
            simp only [if_pos hsync, if_pos hsd, List.mem_append,
              List.mem_singleton, List.mem_map] at hx
            rcases hx with (hx | rfl) | rfl
            · rcases hx with ⟨y, hy, rfl⟩
              intro hxc
              have hyc : y = c := by simpa using hxc
              subst hyc
              exact ((mem_ArrayMinus _ _ _).mp hy).2 hcU
            · intro hxc
              exact hcsync (Eq.symm (by simpa using hxc))
            · intro hxc
              exact hcsd (Eq.symm (by simpa using hxc))
      · simp at hfalse
    · have hnot : ¬ (pcols.softDelete = true ∧ pcols.softDeleteColName ≠ "") := by
        intro ⟨h1, h2⟩
        exact hsd (by simp [h1, h2])
      rw [if_neg hsd] at hu
      simp only [List.mem_singleton] at hu
      subst hu
      constructor
      · intro c
        simp only [if_pos hsync, if_neg hsd, List.map_append, map_fst_tagged,
          List.map_cons, List.map_nil, List.append_nil, List.mem_append,
          mem_ArrayMinus, List.mem_singleton, List.not_mem_nil, or_false]
        constructor
        · rintro (h | h)
          · exact Or.inl h
          · exact Or.inr (Or.inl h)
        · rintro (h | h | ⟨h1, h2, _⟩)
          · exact Or.inl h
          · exact Or.inr h
          · exact absurd ⟨h1, h2⟩ hnot
      · intro V eval row c hcU hcsync _hcsd
        unfold applyAssigns
        rw [List.find?_eq_none.mpr ?_]
        · intro x hx
          simp only [if_pos hsync, if_neg hsd, List.append_nil, List.mem_append,
            List.mem_singleton, List.mem_map] at hx
          rcases hx with hx | rfl
          · rcases hx with ⟨y, hy, rfl⟩
            intro hxc
            have hyc : y = c := by simpa using hxc
            subst hyc
            exact ((mem_ArrayMinus _ _ _).mp hy).2 hcU
          · intro hxc
            exact hcsync (Eq.symm (by simpa using hxc))

theorem updateClausesForGroup_nonDelete_softdelete_facts
    {pcols : PeerDBColumns} {shortColumn : String → String}
    {allCols : List String} {g : String} {uc : UpdateClause}
    (hsd : (pcols.softDelete && decide (pcols.softDeleteColName ≠ "")) = true)
    (h : uc ∈ updateClausesForGroup pcols shortColumn allCols g)
    (hfalse : uc.matchedRtEq2 = false) :
    (pcols.softDeleteColName, MergeExpr.litFalse) ∈ uc.assigns ∧
    (pcols.softDeleteColName, MergeExpr.litTrue) ∉ uc.assigns := by
  rw [updateClausesForGroup_shape, if_pos hsd] at h
  simp only [List.mem_cons, List.not_mem_nil, or_false] at h
  rcases h with rfl | rfl
  · constructor
    · rw [if_pos hsd]
      exact List.mem_append_right _ (List.mem_singleton.mpr rfl)
    · rw [if_pos hsd]
      intro hmem
      simp only [List.mem_append, List.mem_singleton, List.mem_map] at hmem
      rcases hmem with (hmem | hmem) | hmem
      · rcases hmem with ⟨y, _, hy⟩
        simp at hy
      · split at hmem
        · simp only [List.mem_singleton, Prod.mk.injEq] at hmem
          exact MergeExpr.noConfusion hmem.2
        · simp at hmem
      · simp only [Prod.mk.injEq] at hmem
        exact MergeExpr.noConfusion hmem.2
  · simp at hfalse

/-- C4: when soft-delete is configured (`SoftDelete` with a non-empty
column name), every matched non-delete (`_rt!=2`) update branch of the
generated merge statement assigns `FALSE` to the soft-delete column — so an
insert/update staged after a soft-delete clears the marker — and the only
branches that assign `TRUE` to the soft-delete column are delete-type
(`_rt=2`) branches. -/
theorem c4_soft_delete_round_trip (pcols : PeerDBColumns)
    (columns unchangedToastColumns : List String)
    (hb : pcols.softDelete = true) (hn : pcols.softDeleteColName ≠ "") :
    (∀ cl ∈ generateMergeClauses pcols columns unchangedToastColumns,
      cl.matched = true → cl.rtCond = RtCond.ne2 →
      ∀ assigns, cl.action = MergeAction.updateAction assigns →
        (pcols.softDeleteColName, MergeExpr.litFalse) ∈ assigns) ∧
    (∀ cl ∈ generateMergeClauses pcols columns unchangedToastColumns,
      setsCol cl pcols.softDeleteColName MergeExpr.litTrue →
      cl.rtCond = RtCond.eq2) := by
  have hsd : (pcols.softDelete && decide (pcols.softDeleteColName ≠ "")) = true := by
    simp [hb, hn]
  constructor
  · intro cl hcl hm hr assigns ha
    unfold generateMergeClauses at hcl
    simp only [hb, if_true, List.mem_append, List.mem_cons, List.mem_map,
      List.mem_singleton, List.not_mem_nil, or_false] at hcl
    rcases hcl with (rfl | hcl | rfl) | rfl
    · simp at hm
    · rcases hcl with ⟨uc, hucmem, rfl⟩
      rcases hmr : uc.matchedRtEq2 with _ | _
      · simp only at ha
        injection ha with ha'
        subst ha'
        rcases mem_generateUpdateStatements hucmem with ⟨g, _, hg⟩
        exact (updateClausesForGroup_nonDelete_softdelete_facts hsd hg hmr).1
      · simp only [hmr, if_true] at hr
        exact absurd hr (by simp)
    · simp at hm
    · simp only [if_pos hsd] at hr
      exact absurd hr (by simp)
  · intro cl hcl hset
    unfold generateMergeClauses at hcl
    simp only [hb, if_true, List.mem_append, List.mem_cons, List.mem_map,
      List.mem_singleton, List.not_mem_nil, or_false] at hcl
    rcases hcl with (rfl | hcl | rfl) | rfl
    · exfalso
      simp only [setsCol] at hset
      have hT := (List.of_mem_zip hset).2
      simp only [List.mem_append, List.mem_map, List.mem_singleton] at hT
      rcases hT with ⟨y, _, hy⟩ | hy
      · exact MergeExpr.noConfusion hy
      · exact MergeExpr.noConfusion hy
    · rcases hcl with ⟨uc, hucmem, rfl⟩
      rcases hmr : uc.matchedRtEq2 with _ | _
      · exfalso
        simp only [setsCol] at hset
        rcases mem_generateUpdateStatements hucmem with ⟨g, _, hg⟩
        exact (updateClausesForGroup_nonDelete_softdelete_facts hsd hg hmr).2 hset
      · simp [hmr]
    · rfl
    · rfl

/-- Witness for C3 at a two-column schema `["a", "b"]` with toast group
`"b"`, soft-delete and synced-at configured. -/
theorem c3_unchanged_columns_preserved_witness :
    ("_synced_at" : String) ≠ "" ∧
    ((∀ g ∈ ["b"],
       ∃ uc ∈ generateUpdateStatements
           { softDelete := true, softDeleteColName := "_is_deleted"
             syncedAtColName := "_synced_at" } (fun _ => "_c0") ["a", "b"] ["b"],
         uc.matchedRtEq2 = false ∧ uc.ut = g) ∧
     (∀ uc ∈ generateUpdateStatements
         { softDelete := true, softDeleteColName := "_is_deleted"
           syncedAtColName := "_synced_at" } (fun _ => "_c0") ["a", "b"] ["b"],
       uc.matchedRtEq2 = false →
         (∀ c : String, (c ∈ uc.assigns.map Prod.fst) ↔
           ((c ∈ ["a", "b"] ∧ c ∉ uc.ut.splitOn ",") ∨
            c = "_synced_at" ∨
            ((true : Bool) = true ∧ ("_is_deleted" : String) ≠ "" ∧
              c = "_is_deleted"))) ∧
         (∀ (V : Type) (eval : MergeExpr → V) (row : String → V) (c : String),
           c ∈ uc.ut.splitOn "," → c ≠ "_synced_at" → c ≠ "_is_deleted" →
           applyAssigns eval row uc.assigns c = row c))) :=
  ⟨by decide,
   c3_unchanged_columns_preserved
     { softDelete := true, softDeleteColName := "_is_deleted"
       syncedAtColName := "_synced_at" } (fun _ => "_c0") ["a", "b"] ["b"]
     (by decide)⟩

/-- Witness for C4 at a two-column schema `["a", "b"]` with toast group
`"b"`, soft-delete and synced-at configured. -/
theorem c4_soft_delete_round_trip_witness :
    (true : Bool) = true ∧ ("_is_deleted" : String) ≠ "" ∧
    ((∀ cl ∈ generateMergeClauses
        { softDelete := true, softDeleteColName := "_is_deleted"
          syncedAtColName := "_synced_at" } ["a", "b"] ["b"],
      cl.matched = true → cl.rtCond = RtCond.ne2 →
      ∀ assigns, cl.action = MergeAction.updateAction assigns →
        ("_is_deleted", MergeExpr.litFalse) ∈ assigns) ∧
     (∀ cl ∈ generateMergeClauses
        { softDelete := true, softDeleteColName := "_is_deleted"
          syncedAtColName := "_synced_at" } ["a", "b"] ["b"],
      setsCol cl "_is_deleted" MergeExpr.litTrue →
      cl.rtCond = RtCond.eq2)) :=
  ⟨rfl, by decide,
   c4_soft_delete_round_trip
     { softDelete := true, softDeleteColName := "_is_deleted"
       syncedAtColName := "_synced_at" } ["a", "b"] ["b"] rfl (by decide)⟩

/-! ### Value conversion lemmas -/

theorem assertElems_asString_map (ss : List String) :
    assertElems asString (ss.map GoScalar.str) = Except.ok ss := by
  induction ss with
  | nil => rfl
  | cons a t ih => simp [assertElems, asString, ih, Except.map]

/-- C7 counterexample: the claim classifies the empty JSON array as
array-of-string, but `toQValue` only reclassifies when `len(v) > 0`; the
empty array `"[]"` falls through and is returned as a JSON-kind value
holding the original text. -/
theorem c7_empty_array_counterexample :
    toQValue
        { jsonUnmarshalArr := fun _ => some []
          ratSetString := fun _ => none
          float64ToFloat32 := id }
        QValueKind.json (some (GoVal.ifaceStr "[]")) =
      Except.ok { kind := QValueKind.json, value := some (GoVal.str "[]") } ∧
    QValueKind.json ≠ QValueKind.arrayString := by
  constructor
  · rfl
  · decide

/-- C7 amended: a JSON-kind value whose text is a JSON array is
reclassified only when the array is non-empty, using the first element's
runtime type (float32/float64/int16/int32/int64 to the corresponding array
kind, string to array-of-string), and every element is then converted
against that kind; a first element of any other runtime type selects the
plain string kind (not array-of-string), for which the conversion returns a
string-kind value with nil payload; the empty JSON array is not
reclassified and is returned as a JSON-kind value holding the original
text. -/
theorem c7_json_array_reclassification_amended (lib : GoLib) (vstring : String)
    (arr : List GoScalar) (h1 : hasBracketOpen vstring = true)
    (h2 : lib.jsonUnmarshalArr vstring = some arr) :
    (arr = [] →
      toQValue lib QValueKind.json (some (GoVal.ifaceStr vstring)) =
        Except.ok { kind := QValueKind.json, value := some (GoVal.str vstring) }) ∧
    (∀ first rest, arr = first :: rest →
      toQValue lib QValueKind.json (some (GoVal.ifaceStr vstring)) =
        toQValueArray (classifyJsonArrayKind first) (GoVal.arr arr)) ∧
    (∀ ss : List String, arr = ss.map GoScalar.str → arr ≠ [] →
      toQValue lib QValueKind.json (some (GoVal.ifaceStr vstring)) =
        Except.ok { kind := QValueKind.arrayString
                    value := some (GoVal.arrStr ss) }) ∧
    (∀ rest, arr = GoScalar.other :: rest →
      toQValue lib QValueKind.json (some (GoVal.ifaceStr vstring)) =
        Except.ok { kind := QValueKind.string, value := none }) := by
  have hbranch : toQValue lib QValueKind.json (some (GoVal.ifaceStr vstring)) =
      jsonKindBranch lib vstring := rfl
  refine ⟨?_, ?_, ?_, ?_⟩
  · intro ha
    subst ha
    rw [hbranch]
    unfold jsonKindBranch
    rw [if_pos h1, h2]
  · intro first rest ha
    subst ha
    rw [hbranch]
    unfold jsonKindBranch
    rw [if_pos h1, h2]
  · intro ss ha hne
    rcases ss with _ | ⟨s0, ss'⟩
    · simp at ha
      exact absurd ha hne
    · rw [hbranch]
      unfold jsonKindBranch
      rw [if_pos h1, h2]
      simp only [List.map_cons] at ha
      subst ha
      simp only [classifyJsonArrayKind, toQValueArray, List.map_cons]
      rw [show (GoScalar.str s0 :: ss'.map GoScalar.str) =
        (s0 :: ss').map GoScalar.str from by simp]
      rw [assertElems_asString_map]
      rfl
  · intro rest ha
    subst ha
    rw [hbranch]
    unfold jsonKindBranch
    rw [if_pos h1, h2]
    rfl

/-- Witness for C7 amended at `vstring = "[x]"` parsed as the one-element
string array `["x"]`. -/
theorem c7_json_array_reclassification_amended_witness :
    hasBracketOpen "[x]" = true ∧
    (fun _ : String => some [GoScalar.str "x"]) "[x]" =
      some [GoScalar.str "x"] ∧
    (([GoScalar.str "x"] : List GoScalar) = [] →
      toQValue
          { jsonUnmarshalArr := fun _ => some [GoScalar.str "x"]
            ratSetString := fun _ => none
            float64ToFloat32 := id }
          QValueKind.json (some (GoVal.ifaceStr "[x]")) =
        Except.ok { kind := QValueKind.json, value := some (GoVal.str "[x]") }) ∧
    (∀ first rest, ([GoScalar.str "x"] : List GoScalar) = first :: rest →
      toQValue
          { jsonUnmarshalArr := fun _ => some [GoScalar.str "x"]
            ratSetString := fun _ => none
            float64ToFloat32 := id }
          QValueKind.json (some (GoVal.ifaceStr "[x]")) =
        toQValueArray (classifyJsonArrayKind first)
          (GoVal.arr [GoScalar.str "x"])) ∧
    (∀ ss : List String, ([GoScalar.str "x"] : List GoScalar) = ss.map GoScalar.str →
      ([GoScalar.str "x"] : List GoScalar) ≠ [] →
      toQValue
          { jsonUnmarshalArr := fun _ => some [GoScalar.str "x"]
            ratSetString := fun _ => none
            float64ToFloat32 := id }
          QValueKind.json (some (GoVal.ifaceStr "[x]")) =
        Except.ok { kind := QValueKind.arrayString
                    value := some (GoVal.arrStr ss) }) ∧
    (∀ rest, ([GoScalar.str "x"] : List GoScalar) = GoScalar.other :: rest →
      toQValue
          { jsonUnmarshalArr := fun _ => some [GoScalar.str "x"]
            ratSetString := fun _ => none
            float64ToFloat32 := id }
          QValueKind.json (some (GoVal.ifaceStr "[x]")) =
        Except.ok { kind := QValueKind.string, value := none }) :=
  ⟨by decide, rfl,
   c7_json_array_reclassification_amended
     { jsonUnmarshalArr := fun _ => some [GoScalar.str "x"]
       ratSetString := fun _ => none
       float64ToFloat32 := id }
     "[x]" [GoScalar.str "x"] (by decide) rfl⟩

/-- C8: a UUID-kind value arriving as a (non-nil) `*[]byte` of 16 raw bytes
is indeed converted to the canonical hyphenated text and surfaced as a
string-kind value, but a UUID-kind value arriving as a `*[16]byte` is
returned with string kind and the raw 16-byte array as its payload
(query_executor.go line 410, `Value: *v`), contradicting the claim that the
payload is always the hyphenated text and never the raw bytes. -/
theorem c8_uuid_raw_bytes_bug :
    toQValue
        { jsonUnmarshalArr := fun _ => none
          ratSetString := fun _ => none
          float64ToFloat32 := id }
        QValueKind.uuid
        (some (GoVal.bytesPtr [0, 1, 2, 3, 4, 5, 6, 7, 8, 9, 10, 11, 12, 13, 14, 15])) =
      Except.ok { kind := QValueKind.string
                  value := some (GoVal.str "00010203-0405-0607-0809-0a0b0c0d0e0f") } ∧
    toQValue
        { jsonUnmarshalArr := fun _ => none
          ratSetString := fun _ => none
          float64ToFloat32 := id }
        QValueKind.uuid
        (some (GoVal.bytes16Ptr [0, 1, 2, 3, 4, 5, 6, 7, 8, 9, 10, 11, 12, 13, 14, 15])) =
      Except.ok { kind := QValueKind.string
                  value := some (GoVal.bytes16
                    [0, 1, 2, 3, 4, 5, 6, 7, 8, 9, 10, 11, 12, 13, 14, 15]) } ∧
    GoVal.bytes16 [0, 1, 2, 3, 4, 5, 6, 7, 8, 9, 10, 11, 12, 13, 14, 15] ≠
      GoVal.str (uuidString [0, 1, 2, 3, 4, 5, 6, 7, 8, 9, 10, 11, 12, 13, 14, 15]) := by
  exact ⟨rfl, rfl, by decide⟩

end PeerDB
